import Mathlib

/-!
Verification development for the MCP gateway backend (Connection Manager and
Streaming Chat Orchestrator).  Python strings are modelled as lists of unicode
characters (`Str`), Python dicts keyed by strings as association lists, and the
fallible SDK calls (transport open, session initialize, provider streaming,
JSON parsing) as explicit outcome parameters.  Every definition is translated
from the backend source (`app.py`, `database.py`); definitions whose name ends
in `Spec` or that are marked as such restate the specification's words for
comparison with the code-derived definitions.
-/

/-- Python `str` modelled as a list of unicode scalar values. -/
abbrev Str := List Char

/-- The apostrophe character, built numerically. -/
def quoteChar : Char := Char.ofNat 39

/-- Newline character. -/
def nlChar : Char := Char.ofNat 10

/-- Substring containment, Python's `sub in s`. -/
def hasSubstr (sub : Str) : Str → Bool
  | [] => sub.isEmpty
  | c :: t => if sub.isPrefixOf (c :: t) then true else hasSubstr sub t

-- ==========================================================================
-- C4: catalog name sanitization (ConnectionManager.get_all_tools)
-- ==========================================================================

/-- Characters allowed by the regex class `[a-zA-Z0-9_]` used in
`re.sub(r'[^a-zA-Z0-9_]', '_', raw_name)`. -/
def isAllowedChar (c : Char) : Bool :=
  (('a' ≤ c && c ≤ 'z') || ('A' ≤ c && c ≤ 'Z') || ('0' ≤ c && c ≤ '9') || c = '_')

/-- ASCII letter test.  The source calls Python's `str.isalpha` on the first
character of the already-sanitized name; since that character is drawn from
`[a-zA-Z0-9_]`, Python's unicode-aware `isalpha` coincides with this ASCII
test at that call site. -/
def isAsciiLetter (c : Char) : Bool :=
  (('a' ≤ c && c ≤ 'z') || ('A' ≤ c && c ≤ 'Z'))

/-- `re.sub(r'[^a-zA-Z0-9_]', '_', s)`: rewrite every disallowed character
to an underscore. -/
def pySub (s : Str) : Str :=
  s.map (fun c => if isAllowedChar c then c else '_')

/-- `f"{conn_id}__{tool.name}"`. -/
def rawName (connId toolName : Str) : Str :=
  connId ++ ('_' :: '_' :: []) ++ toolName

/-- The `action_` prefix added when the first character is not a letter. -/
def actionPrefixStr : Str := "action_".toList

/-- The name sanitization performed per tool in `get_all_tools`:
substitute disallowed characters, prefix `action_` when the first character
is not a letter, then truncate to 63 characters.  `rawName` is never empty,
so indexing its first character is always defined. -/
def sanitizeToolName (connId toolName : Str) : Str :=
  (if isAsciiLetter ((pySub (rawName connId toolName)).headD '_') then
      pySub (rawName connId toolName)
    else actionPrefixStr ++ pySub (rawName connId toolName)).take 63

/-- The catalog projection of `get_all_tools` restricted to names: for each
registered connection (id paired with its discovered tool names), the
sanitized catalog name of each tool, in registry order. -/
def catalogNames (conns : List (Str × List Str)) : List Str :=
  (conns.map (fun p => p.2.map (sanitizeToolName p.1))).flatten

/-- The spec's invariant pattern `[A-Za-z][A-Za-z0-9_]{0,62}`: nonempty,
starts with a letter, every later character in the allowed class, at most
63 characters in total. -/
def matchesCatalogPattern : Str → Bool
  | [] => false
  | c :: rest => isAsciiLetter c && rest.all isAllowedChar && decide (rest.length ≤ 62)

-- ==========================================================================
-- C5: transport normalization (ConnectionManager.connect / connect_mcp)
-- ==========================================================================

def tyStdio : Str := "stdio".toList
def tySse : Str := "sse".toList
def tyHttp : Str := "http".toList
def strGitmcp : Str := "gitmcp.io".toList
def strSlashSse : Str := "/sse".toList
def strDotPy : Str := ".py".toList
def strHttpScheme : Str := "http://".toList
def strHttpsScheme : Str := "https://".toList
def strInvalidUrl : Str := "Invalid URL for transport. URL must start with http:// or https://".toList

/-- Step 1 of `ConnectionManager.connect` (auto-detection and validation,
app.py lines 204-227): possibly rewrites the transport kind and the target,
or rejects with a validation error.  Returns (kind, target). -/
def managerNormalize (target ty : Str) : Except Str (Str × Str) :=
  if hasSubstr strGitmcp target then
    .ok (tySse, if strSlashSse.isSuffixOf target then target else target ++ strSlashSse)
  else if strDotPy.isSuffixOf target
      || (!strHttpScheme.isPrefixOf target && !strHttpsScheme.isPrefixOf target) then
    .ok (if ty = tyStdio || ty = tySse then ty else tyStdio, target)
  else if ty = tyHttp || ty = tySse then
    if !strHttpScheme.isPrefixOf target && !strHttpsScheme.isPrefixOf target then
      .error strInvalidUrl
    else .ok (ty, target)
  else .ok (ty, target)

/-- The pre-correction performed by the `/api/mcp/connect` endpoint
(`connect_mcp`, app.py lines 1267-1280) before it calls the manager. -/
def endpointNormalize (target ty : Str) : Str :=
  if strDotPy.isSuffixOf target
      || (!strHttpScheme.isPrefixOf target && !strHttpsScheme.isPrefixOf target) then
    tyStdio
  else if hasSubstr strGitmcp target then
    tySse
  else ty

/-- The transport kind actually selected for a connect request arriving at
the endpoint: endpoint pre-correction followed by the manager's own
normalization. -/
def pipelineKind (target ty : Str) : Except Str Str :=
  match managerNormalize target (endpointNormalize target ty) with
  | .ok (t, _) => .ok t
  | .error e => .error e

deriving instance DecidableEq for Except

example : pipelineKind "local.py".toList tySse = .ok tyStdio := by decide
example : pipelineKind "https://gitmcp.io/org/repo.py".toList tySse = .ok tySse := by decide
example : managerNormalize "local.py".toList tySse = .ok (tySse, "local.py".toList) := by decide
example : sanitizeToolName "c1".toList "my-tool".toList = "c1__my_tool".toList := by decide
example : matchesCatalogPattern (sanitizeToolName "9x".toList "t".toList) = true := by decide

lemma pySub_allowed (s : Str) : ∀ c ∈ pySub s, isAllowedChar c = true := by
  intro c hc
  rw [pySub, List.mem_map] at hc
  obtain ⟨a, _, rfl⟩ := hc
  by_cases h : isAllowedChar a
  · simp [h]
  · simp [h]
    decide

lemma matches_take63 (c : Char) (t : Str) (hc : isAsciiLetter c = true)
    (ht : ∀ x ∈ t, isAllowedChar x = true) :
    matchesCatalogPattern ((c :: t).take 63) = true := by
  have e : (c :: t).take 63 = c :: t.take 62 := rfl
  rw [e]
  have hlen : (t.take 62).length ≤ 62 := List.length_take_le 62 t
  simp only [matchesCatalogPattern, hc, Bool.true_and, Bool.and_eq_true,
    List.all_eq_true, decide_eq_true_eq]
  exact ⟨fun x hx => ht x (List.take_subset 62 t hx), hlen⟩

lemma sanitize_matches (cid tn : Str) :
    matchesCatalogPattern (sanitizeToolName cid tn) = true := by
  unfold sanitizeToolName
  have hsne : pySub (rawName cid tn) ≠ [] := by
    simp [pySub, rawName]
  obtain ⟨c, t, hct⟩ := List.exists_cons_of_ne_nil hsne
  have hall : ∀ x ∈ pySub (rawName cid tn), isAllowedChar x = true :=
    pySub_allowed (rawName cid tn)
  rw [hct] at hall ⊢
  by_cases hA : isAsciiLetter ((c :: t).headD '_') = true
  · rw [if_pos hA]
    exact matches_take63 c t hA (fun x hx => hall x (List.mem_cons_of_mem c hx))
  · rw [if_neg hA]
    have e : actionPrefixStr ++ (c :: t) = 'a' :: ("ction_".toList ++ (c :: t)) := rfl
    rw [e]
    apply matches_take63 'a' _ (by decide)
    intro x hx
    have hction : ∀ y ∈ ("ction_".toList : Str), isAllowedChar y = true := by decide
    rcases List.mem_append.1 hx with h1 | h2
    · exact hction x h1
    · exact hall x h2

lemma sanitize_len63 (cid tn : Str) (h : 63 < (pySub (rawName cid tn)).length) :
    (sanitizeToolName cid tn).length = 63 := by
  unfold sanitizeToolName
  rw [List.length_take]
  apply Nat.min_eq_left
  split
  · omega
  · rw [List.length_append]
    omega

/-- C4: every catalog name produced by the `get_all_tools` projection matches
`[A-Za-z][A-Za-z0-9_]{0,62}`, and whenever the sanitized form of
`connectionId ++ "__" ++ originalName` exceeds 63 characters the produced
name is exactly 63 characters long. -/
theorem catalog_name_invariant :
    ∀ conns : List (Str × List Str),
      (∀ name ∈ catalogNames conns, matchesCatalogPattern name = true) ∧
      (∀ cid tn : Str, 63 < (pySub (rawName cid tn)).length →
        (sanitizeToolName cid tn).length = 63) := by
  intro conns
  refine ⟨?_, fun cid tn h => sanitize_len63 cid tn h⟩
  intro name hn
  rw [catalogNames] at hn
  rw [List.mem_flatten] at hn
  obtain ⟨l, hl, hnl⟩ := hn
  rw [List.mem_map] at hl
  obtain ⟨p, _, rfl⟩ := hl
  rw [List.mem_map] at hnl
  obtain ⟨tn, _, rfl⟩ := hnl
  exact sanitize_matches p.1 tn

def cidLong : Str := "connection_with_an_extremely_long_identifier_used_to_exercise_truncation".toList

theorem catalog_name_invariant_witness :
    (sanitizeToolName cidLong "t".toList ∈ catalogNames [(cidLong, ["t".toList])]) ∧
    matchesCatalogPattern (sanitizeToolName cidLong "t".toList) = true ∧
    63 < (pySub (rawName cidLong "t".toList)).length ∧
    (sanitizeToolName cidLong "t".toList).length = 63 :=
  ⟨by decide, (catalog_name_invariant [(cidLong, ["t".toList])]).1 _ (by decide),
    by decide, (catalog_name_invariant []).2 cidLong "t".toList (by decide)⟩

/-- C5 counterexample: the claim that every target ending in `.py` always
selects the pipe (stdio) transport fails.  Through the endpoint pipeline, a
gitmcp.io target ending in `.py` is forced to the event-stream (sse)
transport by the manager's gitmcp auto-detection; and calling
`ConnectionManager.connect` directly with kind `sse` on a `.py` target keeps
`sse`, because the local-script branch only rewrites kinds outside
`{stdio, sse}`. -/
theorem py_target_kind_counterexample :
    (strDotPy.isSuffixOf "https://gitmcp.io/org/repo.py".toList = true ∧
      pipelineKind "https://gitmcp.io/org/repo.py".toList tySse ≠ .ok tyStdio) ∧
    (strDotPy.isSuffixOf "local.py".toList = true ∧
      managerNormalize "local.py".toList tySse = .ok (tySse, "local.py".toList)) := by
  decide

/-- C5 amended: for every target ending in `.py` that does not contain
`gitmcp.io`, the connect pipeline (endpoint pre-correction followed by the
manager's normalization) selects the stdio transport regardless of the
caller-supplied kind. -/
theorem py_target_kind_amended :
    ∀ target ty : Str, strDotPy.isSuffixOf target = true →
      hasSubstr strGitmcp target = false →
      pipelineKind target ty = .ok tyStdio := by
  intro target ty hpy hgit
  simp [pipelineKind, endpointNormalize, managerNormalize, hpy, hgit]

theorem py_target_kind_amended_witness :
    strDotPy.isSuffixOf "local.py".toList = true ∧
    hasSubstr strGitmcp "local.py".toList = false ∧
    pipelineKind "local.py".toList tySse = .ok tyStdio :=
  ⟨by decide, by decide, py_target_kind_amended "local.py".toList tySse (by decide) (by decide)⟩

-- ==========================================================================
-- C3 / C6: tool invocation dispatch and output shaping
-- (ConnectionManager.execute_tool, app.py lines 532-642)
-- ==========================================================================

/-- `MAX_TOOL_RESULT_LENGTH = 8000` from app.py. -/
def MAX_TOOL_RESULT_LENGTH : Nat := 8000

/-- One item of `result.content`; `other` stands for `str(content)` on an
unrecognized content kind. -/
inductive ContentItem
  | text (s : Str)
  | image (mimeType : Str)
  | embedded (uri : Str)
  | other (s : Str)
deriving DecidableEq

def renderContent : ContentItem → Str
  | .text s => s
  | .image m => "[Image Returned: ".toList ++ m ++ "]".toList
  | .embedded u => "[Resource Embedded: ".toList ++ u ++ "]".toList
  | .other s => s

/-- Outcome of `session.call_tool`: either a raised transport exception, or a
`CallToolResult`.  `contentRepr` stands for Python's `str(result.content)`
used in the error branch; `structured` is `result.structuredContent`
serialized by `json.dumps`, with `none` for an absent or falsy value. -/
inductive CallOutcome
  | exn (msg : Str)
  | result (isError : Bool) (contentRepr : Str) (structured : Option Str)
      (content : List ContentItem)
deriving DecidableEq

structure ToolInfo where
  connection_id : Str
  real_name : Str
deriving DecidableEq

/-- Python dict lookup over an association list (first binding wins). -/
def assocFind {β : Type} : List (Str × β) → Str → Option β
  | [], _ => none
  | (k, v) :: t, key => if k = key then some v else assocFind t key

def strErrToolNotFound1 : Str := "Error: Tool ".toList
def strErrToolNotFound2 : Str := " not found.".toList
def strConnLost : Str := "Error: Connection lost.".toList
def strExecErr : Str := "Tool Execution Error: ".toList
def strToolExc : Str := "❌ Tool Exception: ".toList
def strSuccessMarker : Str := "✅ Success (No output)".toList

/-- Walk a reversed digit string emitting a comma before every fourth,
seventh, ... digit; helper for the thousands grouping of Python's
format spec. -/
def grpRev : Str → Nat → Str
  | [], _ => []
  | c :: t, Nat.succ k => c :: grpRev t k
  | c :: t, 0 => ',' :: c :: grpRev t 2

/-- Python's `f"{n:,}"`: decimal digits with a comma every three digits
from the right. -/
def commaFmt (n : Nat) : Str :=
  (grpRev (Nat.repr n).toList.reverse 3).reverse

def eqBar : Str := List.replicate 60 '='

/-- The truncation banner appended in `execute_tool` when the concatenated
result exceeds `MAX_TOOL_RESULT_LENGTH` (app.py lines 601-610). -/
def truncBanner (origLen : Nat) : Str :=
  "\n\n".toList ++ eqBar
    ++ "\n⚠️  OUTPUT TRUNCATED FOR PERFORMANCE\n".toList ++ eqBar
    ++ "\n📊 Original length: ".toList ++ commaFmt origLen
    ++ " characters\n📊 Displayed: ".toList ++ commaFmt MAX_TOOL_RESULT_LENGTH
    ++ " characters\n💡 Tip: Ask me to summarize or extract specific parts\n".toList
    ++ eqBar

/-- `"\n".join(output_parts)`: structured content first when truthy, then the
rendered content items. -/
def joinedOutput (structured : Option Str) (content : List ContentItem) : Str :=
  List.intercalate [nlChar]
    ((match structured with | some s => [s] | none => []) ++ content.map renderContent)

/-- The truncation step: `final_out[:8000]` plus the banner when the output
is strictly longer than the cap. -/
def truncAdjusted (raw : Str) : Str :=
  if MAX_TOOL_RESULT_LENGTH < raw.length then
    raw.take MAX_TOOL_RESULT_LENGTH ++ truncBanner raw.length
  else raw

/-- The success branch of `execute_tool`:
`return final_out if final_out else "✅ Success (No output)"`. -/
def shapeSuccess (structured : Option Str) (content : List ContentItem) : Str :=
  if truncAdjusted (joinedOutput structured content) = [] then strSuccessMarker
  else truncAdjusted (joinedOutput structured content)

/-- `ConnectionManager.execute_tool` as a function of the lookup map, the
registered connection ids and the outcome of the remote call.  The second
component records whether the remote tool was actually invoked. -/
def executeTool (uniqueName : Str) (toolMap : List (Str × ToolInfo))
    (liveConns : List Str) (outcome : CallOutcome) : Str × Bool :=
  match assocFind toolMap uniqueName with
  | none => (strErrToolNotFound1 ++ uniqueName ++ strErrToolNotFound2, false)
  | some info =>
    if liveConns.contains info.connection_id then
      match outcome with
      | .exn m => (strToolExc ++ m, true)
      | .result isErr contentRepr structured content =>
        if isErr then (strExecErr ++ contentRepr, true)
        else (shapeSuccess structured content, true)
    else (strConnLost, false)

/-- Output shaping restated from the spec's words: truncate-and-banner
strictly above the cap, explicit success marker for an empty result,
identity otherwise. -/
def specShapedOutput (raw : Str) : Str :=
  if MAX_TOOL_RESULT_LENGTH < raw.length then
    raw.take MAX_TOOL_RESULT_LENGTH ++ truncBanner raw.length
  else if raw = [] then strSuccessMarker
  else raw

example : commaFmt 8001 = "8,001".toList := by decide
example : commaFmt 123 = "123".toList := by decide
example : commaFmt 1234567 = "1,234,567".toList := by decide
example : shapeSuccess none [] = strSuccessMarker := by decide

lemma truncBanner_ne_nil (n : Nat) : truncBanner n ≠ [] := by
  unfold truncBanner
  simp

lemma shapeSuccess_eq_spec (st : Option Str) (cs : List ContentItem) :
    shapeSuccess st cs = specShapedOutput (joinedOutput st cs) := by
  unfold shapeSuccess truncAdjusted specShapedOutput
  by_cases h : MAX_TOOL_RESULT_LENGTH < (joinedOutput st cs).length
  · simp only [if_pos h]
    rw [if_neg]
    simp [truncBanner_ne_nil]
  · simp only [if_neg h]

/-- C3: on a successful call the returned text equals the spec's shaping of
the concatenated output; above the 8000-character cap the result is the
8000-character truncation plus the banner carrying the original and
displayed lengths, a result of exactly 8000 characters is returned
unmodified, and an empty successful result yields the explicit success
marker, never the empty string. -/
theorem execute_tool_output_shaping :
    ∀ (uniqueName : Str) (toolMap : List (Str × ToolInfo)) (liveConns : List Str)
      (info : ToolInfo) (contentRepr : Str) (structured : Option Str)
      (content : List ContentItem),
      assocFind toolMap uniqueName = some info →
      liveConns.contains info.connection_id = true →
      ((executeTool uniqueName toolMap liveConns
          (.result false contentRepr structured content)).1
        = specShapedOutput (joinedOutput structured content)) ∧
      (∀ raw : Str, MAX_TOOL_RESULT_LENGTH < raw.length →
        specShapedOutput raw = raw.take MAX_TOOL_RESULT_LENGTH ++ truncBanner raw.length ∧
        (raw.take MAX_TOOL_RESULT_LENGTH).length = MAX_TOOL_RESULT_LENGTH) ∧
      (∀ raw : Str, raw.length = MAX_TOOL_RESULT_LENGTH → specShapedOutput raw = raw) ∧
      specShapedOutput [] = strSuccessMarker := by
  intro uniqueName toolMap liveConns info contentRepr structured content hfind hlive
  refine ⟨?_, ?_, ?_, by decide⟩
  · unfold executeTool
    rw [hfind]
    simp only [hlive, if_true, Bool.false_eq_true, if_false]
    exact shapeSuccess_eq_spec structured content
  · intro raw hraw
    constructor
    · unfold specShapedOutput
      rw [if_pos hraw]
    · rw [List.length_take]
      exact Nat.min_eq_left (Nat.le_of_lt hraw)
  · intro raw hraw
    unfold specShapedOutput
    rw [if_neg (by omega), if_neg]
    intro hnil
    rw [hnil] at hraw
    simp [MAX_TOOL_RESULT_LENGTH] at hraw

def tInfo0 : ToolInfo := ⟨"c1".toList, "real".toList⟩

theorem execute_tool_output_shaping_witness :
    (executeTool "t".toList [("t".toList, tInfo0)] ["c1".toList]
        (.result false [] none [])).1 = specShapedOutput (joinedOutput none []) ∧
    specShapedOutput (List.replicate 8001 'a')
        = (List.replicate 8001 'a').take MAX_TOOL_RESULT_LENGTH
          ++ truncBanner (List.replicate 8001 'a').length ∧
    specShapedOutput (List.replicate 8000 'a') = List.replicate 8000 'a' ∧
    specShapedOutput [] = strSuccessMarker := by
  have happ := execute_tool_output_shaping "t".toList [("t".toList, tInfo0)] ["c1".toList]
    tInfo0 [] none [] (by decide) (by decide)
  refine ⟨happ.1, ?_, ?_, happ.2.2.2⟩
  · exact (happ.2.1 (List.replicate 8001 'a')
      (by simp only [List.length_replicate, MAX_TOOL_RESULT_LENGTH]; omega)).1
  · exact happ.2.2.1 (List.replicate 8000 'a')
      (by simp only [List.length_replicate, MAX_TOOL_RESULT_LENGTH])

-- ==========================================================================
-- C8: message persistence (ChatDatabase.add_message, database.py 110-147)
-- ==========================================================================

/-- JSON-object stand-in used for parsed tool arguments. -/
abbrev ArgsV := List (Str × Str)

structure ToolCall where
  id : Str
  name : Str
  args : ArgsV
deriving DecidableEq

/-- A message as handed to `add_message` (after its `.get` defaulting). -/
structure DbMsg where
  id : Str
  role : Str
  content : Str
  is_tool_result : Bool
  tool_call_id : Option Str
  toolCalls : List ToolCall
deriving DecidableEq

/-- A persisted row; `seq` stands for the strictly increasing `created_at`
timestamp that `get_messages` orders by. -/
structure DbRow where
  msg : DbMsg
  seq : Nat
deriving DecidableEq

/-- `add_message` issues `INSERT OR REPLACE INTO messages ... (id, ...)` with
`id` the primary key: any existing row with the same message id is deleted
and the new row is inserted with a fresh `created_at`, so in
`created_at`-order the new row lands at the end.  The `/api/messages`
endpoint (`save_message`) passes the caller's message straight through to
this function. -/
def addMessage (db : List DbRow) (m : DbMsg) (now : Nat) : List DbRow :=
  (db.filter (fun r => r.msg.id ≠ m.id)) ++ [⟨m, now⟩]

def msgA1 : DbMsg := ⟨"a".toList, "user".toList, "x".toList, false, none, []⟩
def msgA2 : DbMsg := ⟨"a".toList, "user".toList, "y".toList, false, none, []⟩
def msgB : DbMsg := ⟨"b".toList, "user".toList, "z".toList, false, none, []⟩

/-- C8 counterexample: persisted turns are not immutable.  Persisting a
second message that reuses the id of an already-persisted turn replaces
that turn (`INSERT OR REPLACE`), so the first persisted row is gone from
the store afterwards. -/
theorem add_message_replace_counterexample :
    (⟨msgA1, 0⟩ : DbRow) ∈ addMessage [] msgA1 0 ∧
    addMessage (addMessage [] msgA1 0) msgA2 1 = [⟨msgA2, 1⟩] ∧
    (⟨msgA1, 0⟩ : DbRow) ∉ addMessage (addMessage [] msgA1 0) msgA2 1 ∧
    msgA1 ≠ msgA2 := by
  decide

/-- C8 amended: `add_message` is an upsert keyed by message id.  When the
incoming id differs from every persisted row's id the call is a pure
append: every existing row is preserved unchanged and the new row is
appended at the end.  (The orchestrator always generates fresh UUID ids, so
its own writes are appends; a caller reusing an id replaces that row.) -/
theorem add_message_append_amended :
    ∀ (db : List DbRow) (m : DbMsg) (now : Nat),
      (∀ r ∈ db, r.msg.id ≠ m.id) →
      addMessage db m now = db ++ [⟨m, now⟩] := by
  intro db m now h
  unfold addMessage
  congr 1
  rw [List.filter_eq_self]
  intro r hr
  exact decide_eq_true (h r hr)

theorem add_message_append_amended_witness :
    (∀ r ∈ [(⟨msgA1, 0⟩ : DbRow)], r.msg.id ≠ msgB.id) ∧
    addMessage [⟨msgA1, 0⟩] msgB 1 = [⟨msgA1, 0⟩, ⟨msgB, 1⟩] :=
  ⟨by decide, add_message_append_amended [⟨msgA1, 0⟩] msgB 1 (by decide)⟩

-- ==========================================================================
-- C1 / C9: connection lifecycle (ConnectionManager.connect / disconnect,
-- app.py lines 189-462)
-- ==========================================================================

/-- A resource registered on the attempt's `AsyncExitStack`: a transport
channel or the `ClientSession` context.  `acq` numbers the stdio channel
acquisitions of one attempt in order. -/
inductive Resource
  | stdioChan (params : Str) (acq : Nat)
  | sseChan (target : Str)
  | httpChan (target : Str)
  | clientSession
deriving DecidableEq

structure ConnectCounts where
  tools : Nat
  resources : Nat
  prompts : Nat
deriving DecidableEq

/-- The registered `MCPConnection`: its exit stack (most recently acquired
resource first), discovery results, and the acquisition index of the
channel the `ClientSession` reads and writes. -/
structure MCPConn where
  name : Str
  exitStack : List Resource
  tools : List Str
  resources : List Str
  prompts : List Str
  sessionChanIndex : Option Nat
deriving DecidableEq

abbrev Registry := List (Str × MCPConn)

/-- Environment oracle for one connect attempt: the outcome of each
fallible external step.  Discovery results are `none` when the
corresponding `list_*` call raises (degraded to an empty list). -/
structure ConnectEnv where
  cmdResolveOk : Bool
  stdioOk1 : Bool
  stdioOk2 : Bool
  sseOk : Bool
  httpOk : Bool
  sessionEnterOk : Bool
  initOk : Bool
  toolsRes : Option (List Str)
  resourcesRes : Option (List Str)
  promptsRes : Option (List Str)
deriving DecidableEq

/-- Result of one connect attempt: the registry afterwards, the resources
acquired during the attempt in acquisition order, the resources released
by `exit_stack.aclose()` in release order, and the surfaced result. -/
structure ConnectOutcome where
  registry : Registry
  acquired : List Resource
  released : List Resource
  result : Except Str ConnectCounts
deriving DecidableEq

def strCmdFail : Str := "Invalid command or script not found".toList
def strStdioFail : Str := "Failed to start server".toList
def strSseFail : Str := "SSE connection failed".toList
def strHttpFail : Str := "HTTP connection failed".toList
def strSessEnterFail : Str := "Failed to enter client session".toList
def strInitFail : Str := "Failed to initialize MCP session".toList
def strUnknownType : Str := "Unknown connection type".toList

/-- Python dict assignment `self.connections[connection_id] = conn`:
replace in place when the key exists, append otherwise. -/
def registryInsert (reg : Registry) (k : Str) (v : MCPConn) : Registry :=
  if reg.any (fun p => p.1 = k) then
    reg.map (fun p => if p.1 = k then (k, v) else p)
  else reg ++ [(k, v)]

/-- Steps 3-5 of `connect` shared by the three transports: enter the
`ClientSession` context, initialize with timeout, run discovery (failures
degrade to empty lists), then register the session.  `stack` is the exit
stack so far (head = most recent), `acq` the acquisition trace, `chanIdx`
the acquisition whose channel the session uses. -/
def afterTransport (env : ConnectEnv) (cid : Str) (reg : Registry)
    (stack acq : List Resource) (chanIdx : Nat) : ConnectOutcome :=
  if env.sessionEnterOk then
    if env.initOk then
      ⟨registryInsert reg cid
          ⟨cid, Resource.clientSession :: stack, env.toolsRes.getD [],
            env.resourcesRes.getD [], env.promptsRes.getD [], some chanIdx⟩,
        acq ++ [Resource.clientSession], [],
        .ok ⟨(env.toolsRes.getD []).length, (env.resourcesRes.getD []).length,
          (env.promptsRes.getD []).length⟩⟩
    else ⟨reg, acq ++ [Resource.clientSession],
      Resource.clientSession :: stack, .error strInitFail⟩
  else ⟨reg, acq, stack, .error strSessEnterFail⟩

/-- `ConnectionManager.connect`: normalization and validation, transport
opening (the stdio branch enters `stdio_client` twice — once inside the
try at line 285 and once unconditionally at line 294), session
initialization, discovery and registration.  On any failure the exit stack
is closed (`aclose` releases in reverse acquisition order) and the error
surfaced; the registry is written only on full success. -/
def connectModel (env : ConnectEnv) (cid target ty : Str) (reg : Registry) :
    ConnectOutcome :=
  match managerNormalize target ty with
  | .error e => ⟨reg, [], [], .error e⟩
  | .ok (ty2, target2) =>
    if ty2 = tyStdio then
      if env.cmdResolveOk then
        if env.stdioOk1 then
          if env.stdioOk2 then
            afterTransport env cid reg
              (Resource.stdioChan target2 1 :: Resource.stdioChan target2 0 :: [])
              [Resource.stdioChan target2 0, Resource.stdioChan target2 1] 1
          else ⟨reg, [Resource.stdioChan target2 0], [Resource.stdioChan target2 0],
            .error strStdioFail⟩
        else ⟨reg, [], [], .error strStdioFail⟩
      else ⟨reg, [], [], .error strCmdFail⟩
    else if ty2 = tySse then
      if env.sseOk then
        afterTransport env cid reg [Resource.sseChan target2] [Resource.sseChan target2] 0
      else ⟨reg, [], [], .error strSseFail⟩
    else if ty2 = tyHttp then
      if env.httpOk then
        afterTransport env cid reg [Resource.httpChan target2] [Resource.httpChan target2] 0
      else ⟨reg, [], [], .error strHttpFail⟩
    else ⟨reg, [], [], .error strUnknownType⟩

/-- `ConnectionManager.disconnect`: close the session's exit stack and drop
the registry entry; no-op when absent.  Returns the new registry and the
released resources. -/
def disconnectModel (reg : Registry) (cid : Str) : Registry × List Resource :=
  match assocFind reg cid with
  | some conn => (reg.filter (fun p => ¬ p.1 = cid), conn.exitStack)
  | none => (reg, [])

/-- C1: a connect attempt that fails at any step (validation, transport
open, session initialization) leaves the registry exactly as it was —
in particular the connection id is never newly registered — and every
resource acquired during the attempt is released, in reverse acquisition
order, before the error is surfaced. -/
theorem connect_failure_releases_and_keeps_registry :
    ∀ (env : ConnectEnv) (cid target ty : Str) (reg : Registry) (e : Str),
      (connectModel env cid target ty reg).result = .error e →
      (connectModel env cid target ty reg).registry = reg ∧
      (connectModel env cid target ty reg).released
        = (connectModel env cid target ty reg).acquired.reverse := by
  intro env cid target ty reg e
  unfold connectModel afterTransport
  repeat' split
  all_goals intro h
  all_goals first
    | exact ⟨rfl, rfl⟩
    | simp at h

def envFail : ConnectEnv := ⟨true, false, true, true, true, true, true, none, none, none⟩

theorem connect_failure_witness :
    (connectModel envFail "c1".toList "local.py".toList tyStdio []).result
        = .error strStdioFail ∧
    (connectModel envFail "c1".toList "local.py".toList tyStdio []).registry = [] ∧
    (connectModel envFail "c1".toList "local.py".toList tyStdio []).released
      = (connectModel envFail "c1".toList "local.py".toList tyStdio []).acquired.reverse :=
  ⟨by decide,
    connect_failure_releases_and_keeps_registry envFail "c1".toList "local.py".toList
      tyStdio [] strStdioFail (by decide)⟩

lemma assocFind_mapReplace (reg : Registry) (k : Str) (v : MCPConn)
    (h : ∃ p ∈ reg, p.1 = k) :
    assocFind (reg.map (fun p => if p.1 = k then (k, v) else p)) k = some v := by
  induction reg with
  | nil =>
    obtain ⟨p, hp, _⟩ := h
    simp at hp
  | cons hd tl ih =>
    rw [List.map_cons]
    by_cases hk : hd.1 = k
    · rw [if_pos hk]
      simp only [assocFind]
      simp
    · rw [if_neg hk]
      simp only [assocFind]
      rw [if_neg hk]
      obtain ⟨p, hp, hpk⟩ := h
      rcases List.mem_cons.1 hp with rfl | hmem
      · exact absurd hpk hk
      · exact ih ⟨p, hmem, hpk⟩

lemma assocFind_append_missing (reg : Registry) (k : Str) (v : MCPConn)
    (h : ∀ p ∈ reg, p.1 ≠ k) :
    assocFind (reg ++ [(k, v)]) k = some v := by
  induction reg with
  | nil =>
    simp only [List.nil_append, assocFind]
    simp
  | cons hd tl ih =>
    have hk : hd.1 ≠ k := h hd (List.mem_cons_self hd tl)
    rw [List.cons_append]
    simp only [assocFind]
    rw [if_neg hk]
    exact ih (fun p hp => h p (List.mem_cons_of_mem hd hp))

lemma assocFind_registryInsert (reg : Registry) (k : Str) (v : MCPConn) :
    assocFind (registryInsert reg k v) k = some v := by
  unfold registryInsert
  split
  · next h =>
    apply assocFind_mapReplace
    rw [List.any_eq_true] at h
    obtain ⟨p, hp, hpk⟩ := h
    exact ⟨p, hp, of_decide_eq_true hpk⟩
  · next h =>
    apply assocFind_append_missing
    intro p hp hk
    rw [List.any_eq_true] at h
    exact h ⟨p, hp, decide_eq_true hk⟩

/-- C9: on the stdio path, when the first stdio channel acquisition
succeeds, `stdio_client` is entered a second time with the same server
parameters — the resolved command is launched twice in one attempt — the
session is initialized over the channel of the second launch, and both
acquisitions remain on the registered session's exit stack, which is
exactly what `disconnect` later releases. -/
theorem stdio_double_launch :
    ∀ (env : ConnectEnv) (cid target ty target2 : Str) (reg : Registry),
      managerNormalize target ty = .ok (tyStdio, target2) →
      env.cmdResolveOk = true → env.stdioOk1 = true → env.stdioOk2 = true →
      env.sessionEnterOk = true → env.initOk = true →
      (connectModel env cid target ty reg).acquired
          = [Resource.stdioChan target2 0, Resource.stdioChan target2 1,
             Resource.clientSession] ∧
      (∃ conn : MCPConn,
        assocFind (connectModel env cid target ty reg).registry cid = some conn ∧
        conn.exitStack = [Resource.clientSession, Resource.stdioChan target2 1,
          Resource.stdioChan target2 0] ∧
        conn.sessionChanIndex = some 1 ∧
        (disconnectModel (connectModel env cid target ty reg).registry cid).2
            = conn.exitStack) := by
  intro env cid target ty target2 reg hn h1 h2 h3 h4 h5
  unfold connectModel afterTransport
  split
  · next e heq =>
    rw [hn] at heq
    simp at heq
  · next ty2 t2 heq =>
    rw [hn] at heq
    simp only [Except.ok.injEq, Prod.mk.injEq] at heq
    obtain ⟨rfl, rfl⟩ := heq
    simp only [h1, h2, h3, h4, h5, if_true]
    refine ⟨rfl, ⟨cid, Resource.clientSession :: Resource.stdioChan target2 1 ::
      Resource.stdioChan target2 0 :: [], env.toolsRes.getD [], env.resourcesRes.getD [],
      env.promptsRes.getD [], some 1⟩, assocFind_registryInsert reg cid _, rfl, rfl, ?_⟩
    unfold disconnectModel
    rw [assocFind_registryInsert]

def envAllOk : ConnectEnv :=
  ⟨true, true, true, true, true, true, true, some ["t1".toList], none, none⟩

theorem stdio_double_launch_witness :
    (connectModel envAllOk "c1".toList "local.py".toList tyStdio []).acquired
        = [Resource.stdioChan "local.py".toList 0, Resource.stdioChan "local.py".toList 1,
           Resource.clientSession] ∧
    (∃ conn : MCPConn,
      assocFind (connectModel envAllOk "c1".toList "local.py".toList tyStdio []).registry
          "c1".toList = some conn ∧
      conn.exitStack = [Resource.clientSession, Resource.stdioChan "local.py".toList 1,
        Resource.stdioChan "local.py".toList 0] ∧
      conn.sessionChanIndex = some 1 ∧
      (disconnectModel
          (connectModel envAllOk "c1".toList "local.py".toList tyStdio []).registry
          "c1".toList).2 = conn.exitStack) :=
  stdio_double_launch envAllOk "c1".toList "local.py".toList tyStdio "local.py".toList []
    (by decide) rfl rfl rfl rfl rfl

-- ==========================================================================
-- C10: tool-result turn format and provider history translations
-- (execute_tool_endpoint app.py 1154-1160, stream_gemini_response 942-957,
-- stream_groq_response 719-731)
-- ==========================================================================

def strUser : Str := "user".toList
def strToolRole : Str := "tool".toList
def strUnknownId : Str := "unknown".toList
def strUnknownTool : Str := "unknown_tool".toList

/-- `"Tool '"`. -/
def strToolSp : Str := "Tool ".toList ++ [quoteChar]

/-- `"' Output:"`. -/
def strQuoteOut : Str := quoteChar :: " Output:".toList

/-- `f"Tool '{req.tool_name}' Output:\n{result_text}"`. -/
def toolResultContent (toolName resultText : Str) : Str :=
  strToolSp ++ toolName ++ strQuoteOut ++ [nlChar] ++ resultText

/-- The message persisted by the `/api/tools/execute` endpoint. -/
def executeEndpointMsg (msgId callId toolName resultText : Str) : DbMsg :=
  ⟨msgId, strUser, toolResultContent toolName resultText, true, some callId, []⟩

/-- One attempted match of `re.search(r"Tool '([^']+)' Output:", s)` at the
start of `s`: the literal `Tool '`, then a maximal nonempty run of
non-quote characters, then the literal `' Output:`.  (Backtracking into the
greedy run cannot help, because the run is bounded by the next quote.) -/
def matchToolNameAt (s : Str) : Option Str :=
  if strToolSp.isPrefixOf s then
    if (s.drop strToolSp.length).takeWhile (fun c => ¬ c = quoteChar) ≠ []
        ∧ strQuoteOut.isPrefixOf
          ((s.drop strToolSp.length).drop
            ((s.drop strToolSp.length).takeWhile (fun c => ¬ c = quoteChar)).length) then
      some ((s.drop strToolSp.length).takeWhile (fun c => ¬ c = quoteChar))
    else none
  else none

/-- `re.search`: leftmost matching position wins. -/
def searchToolName : Str → Option Str
  | [] => none
  | c :: t =>
    match matchToolNameAt (c :: t) with
    | some r => some r
    | none => searchToolName t

/-- The Gemini history translation's tool-name recovery with its
`unknown_tool` fallback. -/
def gemRecoverToolName (content : Str) : Str :=
  (searchToolName content).getD strUnknownTool

structure GroqHistMsg where
  role : Str
  tool_call_id : Str
  content : Str
deriving DecidableEq

def natToStr (n : Nat) : Str := (Nat.repr n).toList

def groqTruncNote (total : Nat) : Str :=
  "\n\n[... Output truncated. Total length: ".toList ++ natToStr total
    ++ " characters]".toList

/-- The Groq history translation of a persisted tool-result message: role
`tool`, the originating call id (default `unknown`), content truncated at
the 8000-character cap. -/
def groqToolResultMsg (content : Str) (tcid : Option Str) : GroqHistMsg :=
  ⟨strToolRole, tcid.getD strUnknownId,
    if MAX_TOOL_RESULT_LENGTH < content.length then
      content.take MAX_TOOL_RESULT_LENGTH ++ groqTruncNote content.length
    else content⟩

example : searchToolName (toolResultContent "calc".toList "42".toList)
    = some "calc".toList := by decide
example : gemRecoverToolName "no pattern here".toList = strUnknownTool := by decide

lemma takeWhile_append_stop (p : Char → Bool) (l1 : Str) (c : Char) (l2 : Str)
    (h1 : ∀ x ∈ l1, p x = true) (hc : p c = false) :
    (l1 ++ c :: l2).takeWhile p = l1 := by
  induction l1 with
  | nil => simp [List.takeWhile_cons, hc]
  | cons a t ih =>
    have ha := h1 a (List.mem_cons_self a t)
    simp only [List.cons_append, List.takeWhile_cons, ha, if_true]
    rw [ih (fun x hx => h1 x (List.mem_cons_of_mem a hx))]

lemma isPrefixOf_self_append (l r : Str) : l.isPrefixOf (l ++ r) = true := by
  rw [List.isPrefixOf_iff_prefix]
  exact List.prefix_append l r

lemma matchAt_toolResult (n r : Str) (hne : n ≠ [])
    (hq : ∀ c ∈ n, ¬ c = quoteChar) :
    matchToolNameAt (toolResultContent n r) = some n := by
  have e : toolResultContent n r
      = strToolSp ++ (n ++ strQuoteOut ++ [nlChar] ++ r) := by
    unfold toolResultContent
    simp [List.append_assoc]
  have hrun : (n ++ strQuoteOut ++ [nlChar] ++ r).takeWhile
      (fun c => ¬ c = quoteChar) = n := by
    have e2 : n ++ strQuoteOut ++ [nlChar] ++ r
        = n ++ quoteChar :: (" Output:".toList ++ [nlChar] ++ r) := by
      simp [strQuoteOut, List.append_assoc]
    rw [e2]
    apply takeWhile_append_stop
    · intro x hx
      exact decide_eq_true (hq x hx)
    · simp
  have hpre : strQuoteOut.isPrefixOf
      ((n ++ strQuoteOut ++ [nlChar] ++ r).drop n.length) = true := by
    have e3 : n ++ strQuoteOut ++ [nlChar] ++ r
        = n ++ (strQuoteOut ++ ([nlChar] ++ r)) := by
      simp [List.append_assoc]
    rw [e3, List.drop_left]
    exact isPrefixOf_self_append _ _
  unfold matchToolNameAt
  rw [e, isPrefixOf_self_append, if_pos rfl, List.drop_left, hrun, hpre]
  rw [if_pos ⟨hne, rfl⟩]

lemma search_toolResult (n r : Str) (hne : n ≠ [])
    (hq : ∀ c ∈ n, ¬ c = quoteChar) :
    searchToolName (toolResultContent n r) = some n := by
  have hm := matchAt_toolResult n r hne hq
  have e : toolResultContent n r
      = 'T' :: (((('o' :: 'o' :: 'l' :: ' ' :: quoteChar :: [] ++ n) ++ strQuoteOut)
        ++ [nlChar]) ++ r) := rfl
  rw [e]
  simp only [searchToolName]
  rw [← e, hm]

/-- C10: the tool-result turn persisted by the execution endpoint carries
role `user` (not a distinct tool-result role), the `is_tool_result` flag,
the originating call id, and content `Tool '<name>' Output:` + newline +
result text; the Gemini history translation recovers the tool name from
exactly that content by regex search, with the `unknown_tool` fallback
when no match exists; the Groq translation instead uses the flag and the
stored call id. -/
theorem tool_result_turn_roundtrip :
    ∀ (msgId callId toolName resultText : Str),
      (executeEndpointMsg msgId callId toolName resultText
        = ⟨msgId, strUser, toolResultContent toolName resultText, true,
            some callId, []⟩) ∧
      (toolName ≠ [] → (∀ c ∈ toolName, ¬ c = quoteChar) →
        gemRecoverToolName (toolResultContent toolName resultText) = toolName) ∧
      (∀ content, searchToolName content = none →
        gemRecoverToolName content = strUnknownTool) ∧
      ((groqToolResultMsg (toolResultContent toolName resultText) (some callId)).role
          = strToolRole ∧
        (groqToolResultMsg (toolResultContent toolName resultText)
            (some callId)).tool_call_id = callId) := by
  intro msgId callId toolName resultText
  refine ⟨rfl, fun hne hq => ?_, fun content h => ?_, rfl, rfl⟩
  · unfold gemRecoverToolName
    rw [search_toolResult toolName resultText hne hq]
    rfl
  · unfold gemRecoverToolName
    rw [h]
    rfl

theorem tool_result_turn_roundtrip_witness :
    ("calc".toList ≠ ([] : Str)) ∧
    (∀ c ∈ ("calc".toList : Str), ¬ c = quoteChar) ∧
    gemRecoverToolName (toolResultContent "calc".toList "42".toList) = "calc".toList ∧
    searchToolName "no pattern".toList = none ∧
    gemRecoverToolName "no pattern".toList = strUnknownTool :=
  ⟨by decide, by decide,
    (tool_result_turn_roundtrip [] [] "calc".toList "42".toList).2.1
      (by decide) (by decide),
    by decide,
    (tool_result_turn_roundtrip [] [] "x".toList []).2.2.1 "no pattern".toList
      (by decide)⟩

-- ==========================================================================
-- C2 / C7: streaming orchestration
-- (stream_groq_response app.py 684-895, stream_gemini_response 897-1055)
-- ==========================================================================

/-- A canonical stream event (one SSE `data:` line). -/
inductive Event
  | text (s : Str)
  | toolApproval (t : ToolCall)
  | toolResult (name : Str) (result : Str)
  | error (s : Str)
  | done
deriving DecidableEq

/-- A turn persisted through `db.add_message` by a stream function (the
generated UUID id is abstracted away). -/
structure SavedMsg where
  role : Str
  content : Str
  toolCalls : List ToolCall
deriving DecidableEq

/-- One incremental Groq tool-call delta: stream index plus id/name/argument
fragments, the empty string standing for an absent (falsy) field. -/
structure GroqToolDelta where
  index : Nat
  id : Str
  name : Str
  args : Str
deriving DecidableEq

/-- The per-chunk payloads of the Groq stream in processing order: a chunk's
text content (if any) followed by its tool-call deltas. -/
inductive GroqItem
  | text (s : Str)
  | tool (d : GroqToolDelta)
deriving DecidableEq

structure BufEntry where
  id : Str
  name : Str
  args : Str
deriving DecidableEq

/-- One step of the Groq tool-call accumulation (app.py 802-820): insert a
fresh buffer entry for an unseen index, then overwrite id/name when the
delta carries a truthy value and append the argument fragment. -/
def stepTool (buf : List (Nat × BufEntry)) (d : GroqToolDelta) :
    List (Nat × BufEntry) :=
  (if (buf.map Prod.fst).contains d.index then buf
   else buf ++ [(d.index, ⟨d.id, [], []⟩)]).map
    (fun p =>
      if p.1 = d.index then
        (p.1, ⟨if d.id ≠ [] then d.id else p.2.id,
               if d.name ≠ [] then d.name else p.2.name,
               if d.args ≠ [] then p.2.args ++ d.args else p.2.args⟩)
      else p)

/-- One iteration of the Groq stream loop (app.py 790-820): a truthy text
delta is appended to `final_text` and relayed as a `text` event; a tool
delta only updates the buffer. -/
def stepItem (acc : Str × List (Nat × BufEntry) × List Event) (it : GroqItem) :
    Str × List (Nat × BufEntry) × List Event :=
  match it with
  | .text s =>
    if s ≠ [] then (acc.1 ++ s, acc.2.1, acc.2.2 ++ [Event.text s]) else acc
  | .tool d => (acc.1, stepTool acc.2.1 d, acc.2.2)

/-- `json.loads` of the accumulated argument string, an empty or unparseable
string treated as no arguments (app.py 826-829). -/
def finalizeCall (parse : Str → Option ArgsV) (p : Nat × BufEntry) : ToolCall :=
  ⟨p.2.id, p.2.name, (parse p.2.args).getD []⟩

def strGroqNoClient : Str := "Groq client not initialized".toList
def strGemNoClient : Str := "Gemini client not initialized".toList
def strAssistant : Str := "assistant".toList
def strModelRole : Str := "model".toList

/-- `stream_groq_response` from the start of the stream loop: the events
yielded and the turns persisted, as a function of the JSON parser and the
stream's items.  On stream end, a nonempty buffer persists one assistant
turn with all accumulated calls, emits one `tool_approval_request` for the
first call, then the `[DONE]` sentinel; an empty buffer persists the final
text (when nonempty) and emits the sentinel. -/
def runGroq (parse : Str → Option ArgsV) (clientOk : Bool)
    (items : List GroqItem) : List Event × List SavedMsg :=
  if clientOk then
    let fin := items.foldl stepItem ([], [], [])
    if fin.2.1 = [] then
      (fin.2.2 ++ [Event.done],
        if fin.1 ≠ [] then [⟨strAssistant, fin.1, []⟩] else [])
    else
      match fin.2.1.map (finalizeCall parse) with
      | [] => (fin.2.2 ++ [Event.done], [⟨strAssistant, fin.1, []⟩])
      | c :: cs =>
        (fin.2.2 ++ [Event.toolApproval c, Event.done],
          [⟨strAssistant, fin.1, c :: cs⟩])
  else ([Event.error strGroqNoClient], [])

/-- One part of the Gemini stream (chunk boundaries carry no behavior, so
the stream is the flattened part list). -/
inductive GemPart
  | funCall (name : Str) (args : ArgsV)
  | text (s : Str)
deriving DecidableEq

/-- The Gemini stream loop (app.py 983-1041): the FIRST function-call part
immediately emits one `tool_approval_request` with a fresh call id,
persists one `model` turn carrying only that call, emits `[DONE]` and
returns, discarding the rest of the stream; truthy text parts are relayed
and accumulated; with no function call the final text is persisted (when
nonempty) and the sentinel emitted. -/
def runGemAux (callUuid : Str) (ft : Str) :
    List GemPart → List Event × List SavedMsg
  | [] => ([Event.done], if ft ≠ [] then [⟨strModelRole, ft, []⟩] else [])
  | .funCall n a :: _ =>
    ([Event.toolApproval ⟨callUuid, n, a⟩, Event.done],
      [⟨strModelRole, ft, [⟨callUuid, n, a⟩]⟩])
  | .text s :: ps =>
    if s ≠ [] then
      (Event.text s :: (runGemAux callUuid (ft ++ s) ps).1,
        (runGemAux callUuid (ft ++ s) ps).2)
    else runGemAux callUuid ft ps

def runGem (callUuid : Str) (clientOk : Bool) (parts : List GemPart) :
    List Event × List SavedMsg :=
  if clientOk then runGemAux callUuid [] parts
  else ([Event.error strGemNoClient], [])

-- Spec-side accumulation (from the spec's words: group the fragments by
-- stream index, concatenating argument fragments in arrival order).

def toolDeltasOf (items : List GroqItem) : List GroqToolDelta :=
  items.filterMap (fun it => match it with | .tool d => some d | _ => none)

def idxList (ds : List GroqToolDelta) : List Nat :=
  ds.foldl (fun acc d => if acc.contains d.index then acc else acc ++ [d.index]) []

def lastNonNil (xs : List Str) : Str :=
  xs.foldl (fun acc x => if x ≠ [] then x else acc) []

def concatStr (xs : List Str) : Str :=
  xs.foldl (fun a b => a ++ b) []

def specEntryOf (ds : List GroqToolDelta) : BufEntry :=
  ⟨lastNonNil (ds.map (fun d => d.id)), lastNonNil (ds.map (fun d => d.name)),
    concatStr (ds.map (fun d => d.args))⟩

/-- Specification accumulation: one entry per stream index in order of first
appearance; id and name are the last truthy fragments, the argument string
is the concatenation of the fragments in arrival order. -/
def specBuffer (ds : List GroqToolDelta) : List (Nat × BufEntry) :=
  (idxList ds).map (fun i => (i, specEntryOf (ds.filter (fun d => d.index = i))))

def specCalls (parse : Str → Option ArgsV) (items : List GroqItem) : List ToolCall :=
  (specBuffer (toolDeltasOf items)).map (finalizeCall parse)

def textEvents (items : List GroqItem) : List Event :=
  items.filterMap (fun it => match it with
    | .text s => if s ≠ [] then some (Event.text s) else none
    | _ => none)

def concatTexts (items : List GroqItem) : Str :=
  concatStr (items.filterMap (fun it => match it with
    | .text s => if s ≠ [] then some s else none
    | _ => none))

def isTextPart : GemPart → Bool
  | .text _ => true
  | _ => false

def gemTextEvents (parts : List GemPart) : List Event :=
  parts.filterMap (fun p => match p with
    | .text s => if s ≠ [] then some (Event.text s) else none
    | _ => none)

def gemConcat (parts : List GemPart) : Str :=
  concatStr (parts.filterMap (fun p => match p with
    | .text s => if s ≠ [] then some s else none
    | _ => none))

def parse0 : Str → Option ArgsV := fun _ => none

example :
    runGroq parse0 true [GroqItem.text "hi".toList,
        GroqItem.tool ⟨0, "i1".toList, [], "ab".toList⟩,
        GroqItem.tool ⟨0, [], "f".toList, "c".toList⟩]
      = ([Event.text "hi".toList,
          Event.toolApproval ⟨"i1".toList, "f".toList, []⟩, Event.done],
         [⟨strAssistant, "hi".toList,
            [⟨"i1".toList, "f".toList, []⟩]⟩]) := by decide

example :
    specCalls parse0 [GroqItem.text "hi".toList,
        GroqItem.tool ⟨0, "i1".toList, [], "ab".toList⟩,
        GroqItem.tool ⟨0, [], "f".toList, "c".toList⟩]
      = [⟨"i1".toList, "f".toList, []⟩] := by decide

example :
    runGem "u".toList true [GemPart.text "hi".toList,
        GemPart.funCall "f".toList []]
      = ([Event.text "hi".toList,
          Event.toolApproval ⟨"u".toList, "f".toList, []⟩, Event.done],
         [⟨strModelRole, "hi".toList, [⟨"u".toList, "f".toList, []⟩]⟩]) := by decide

lemma concatStr_foldl (xs : List Str) (a : Str) :
    xs.foldl (fun p q => p ++ q) a = a ++ concatStr xs := by
  induction xs generalizing a with
  | nil => simp [concatStr]
  | cons x xs ih =>
    simp only [List.foldl_cons]
    rw [ih]
    conv_rhs =>
      rw [concatStr]
    simp only [List.foldl_cons, List.nil_append]
    rw [show xs.foldl (fun p q => p ++ q) x = x ++ concatStr xs from ih x]
    rw [List.append_assoc]

lemma concatStr_cons (x : Str) (xs : List Str) :
    concatStr (x :: xs) = x ++ concatStr xs := by
  rw [concatStr]
  simp only [List.foldl_cons, List.nil_append]
  exact concatStr_foldl xs x

/-- The Groq stream loop in closed form: the final text is the
concatenation of the truthy text deltas, the buffer is the tool-delta fold,
and the yielded events are the text events in order. -/
lemma fold_components (items : List GroqItem) (ft : Str)
    (buf : List (Nat × BufEntry)) (evs : List Event) :
    items.foldl stepItem (ft, buf, evs)
      = (ft ++ concatTexts items, (toolDeltasOf items).foldl stepTool buf,
         evs ++ textEvents items) := by
  induction items generalizing ft buf evs with
  | nil =>
    simp [concatTexts, textEvents, toolDeltasOf, concatStr]
  | cons it rest ih =>
    cases it with
    | text s =>
      by_cases hs : s = []
      · subst hs
        simp only [List.foldl_cons, stepItem, ne_eq, not_true_eq_false, if_false,
          reduceIte]
        rw [ih]
        simp [concatTexts, textEvents, toolDeltasOf, List.filterMap_cons]
      · simp only [List.foldl_cons, stepItem, ne_eq, hs, not_false_eq_true, if_true,
          reduceIte]
        rw [ih]
        have h1 : concatTexts (GroqItem.text s :: rest) = s ++ concatTexts rest := by
          simp only [concatTexts, List.filterMap_cons]
          rw [if_pos hs]
          exact concatStr_cons s _
        have h2 : textEvents (GroqItem.text s :: rest)
            = Event.text s :: textEvents rest := by
          simp only [textEvents, List.filterMap_cons]
          rw [if_pos hs]
        have h3 : toolDeltasOf (GroqItem.text s :: rest) = toolDeltasOf rest := by
          simp [toolDeltasOf, List.filterMap_cons]
        rw [h1, h2, h3, List.append_assoc]
        simp
    | tool d =>
      simp only [List.foldl_cons, stepItem]
      rw [ih]
      have h1 : concatTexts (GroqItem.tool d :: rest) = concatTexts rest := by
        simp [concatTexts, List.filterMap_cons]
      have h2 : textEvents (GroqItem.tool d :: rest) = textEvents rest := by
        simp [textEvents, List.filterMap_cons]
      have h3 : toolDeltasOf (GroqItem.tool d :: rest) = d :: toolDeltasOf rest := by
        simp [toolDeltasOf, List.filterMap_cons]
      rw [h1, h2, h3]
      rfl

lemma idxList_snoc (ds : List GroqToolDelta) (d : GroqToolDelta) :
    idxList (ds ++ [d])
      = if (idxList ds).contains d.index then idxList ds
        else idxList ds ++ [d.index] := by
  unfold idxList
  rw [List.foldl_append]
  rfl

lemma map_fst_specBuffer (ds : List GroqToolDelta) :
    (specBuffer ds).map Prod.fst = idxList ds := by
  unfold specBuffer
  rw [List.map_map]
  simp [Function.comp_def]

lemma lastNonNil_snoc (xs : List Str) (x : Str) :
    lastNonNil (xs ++ [x]) = if x ≠ [] then x else lastNonNil xs := by
  unfold lastNonNil
  rw [List.foldl_append]
  rfl

lemma concatStr_snoc (xs : List Str) (x : Str) :
    concatStr (xs ++ [x]) = concatStr xs ++ x := by
  unfold concatStr
  rw [List.foldl_append]
  rfl

lemma specEntryOf_snoc (es : List GroqToolDelta) (d : GroqToolDelta) :
    specEntryOf (es ++ [d])
      = ⟨if d.id ≠ [] then d.id else (specEntryOf es).id,
         if d.name ≠ [] then d.name else (specEntryOf es).name,
         if d.args ≠ [] then (specEntryOf es).args ++ d.args
           else (specEntryOf es).args⟩ := by
  unfold specEntryOf
  simp only [List.map_append, List.map_cons, List.map_nil]
  rw [lastNonNil_snoc, lastNonNil_snoc, concatStr_snoc]
  by_cases h : d.args = []
  · simp [h]
  · simp [h]

lemma specEntryOf_single (d : GroqToolDelta) :
    specEntryOf [d] = ⟨d.id, d.name, d.args⟩ := by
  unfold specEntryOf lastNonNil concatStr
  simp only [List.map_cons, List.map_nil, List.foldl_cons, List.foldl_nil,
    List.nil_append]
  by_cases h1 : d.id = []
  · by_cases h2 : d.name = []
    · simp [h1, h2]
    · simp [h1, h2]
  · by_cases h2 : d.name = []
    · simp [h1, h2]
    · simp [h1, h2]

lemma mem_idxFold (ds : List GroqToolDelta) (acc : List Nat) (i : Nat) :
    i ∈ ds.foldl
        (fun acc d => if acc.contains d.index then acc else acc ++ [d.index]) acc
      ↔ i ∈ acc ∨ ∃ d ∈ ds, d.index = i := by
  induction ds generalizing acc with
  | nil => simp
  | cons d ds ih =>
    simp only [List.foldl_cons]
    rw [ih]
    by_cases h : acc.contains d.index
    · rw [if_pos h]
      have hmem : d.index ∈ acc := by
        rw [← List.elem_iff]
        exact h
      constructor
      · rintro (hi | ⟨d2, hd2, hidx⟩)
        · exact Or.inl hi
        · exact Or.inr ⟨d2, List.mem_cons_of_mem d hd2, hidx⟩
      · rintro (hi | ⟨d2, hd2, hidx⟩)
        · exact Or.inl hi
        · rcases List.mem_cons.1 hd2 with rfl | hd3
          · exact Or.inl (hidx ▸ hmem)
          · exact Or.inr ⟨d2, hd3, hidx⟩
    · rw [if_neg h]
      constructor
      · rintro (hmem | ⟨d2, hd2, hidx⟩)
        · rcases List.mem_append.1 hmem with hi | hi
          · exact Or.inl hi
          · exact Or.inr ⟨d, List.mem_cons_self d ds, (List.mem_singleton.1 hi).symm⟩
        · exact Or.inr ⟨d2, List.mem_cons_of_mem d hd2, hidx⟩
      · rintro (hi | ⟨d2, hd2, hidx⟩)
        · exact Or.inl (List.mem_append.2 (Or.inl hi))
        · rcases List.mem_cons.1 hd2 with rfl | hd3
          · exact Or.inl (List.mem_append.2 (Or.inr (List.mem_singleton.2 hidx.symm)))
          · exact Or.inr ⟨d2, hd3, hidx⟩

lemma mem_idxList_iff (ds : List GroqToolDelta) (i : Nat) :
    i ∈ idxList ds ↔ ∃ d ∈ ds, d.index = i := by
  unfold idxList
  rw [mem_idxFold]
  simp

lemma specBuffer_snoc (ds : List GroqToolDelta) (d : GroqToolDelta) :
    specBuffer (ds ++ [d]) = stepTool (specBuffer ds) d := by
  unfold stepTool
  rw [map_fst_specBuffer]
  by_cases h : (idxList ds).contains d.index
  · rw [if_pos h]
    conv_lhs => rw [specBuffer]
    conv_rhs => rw [specBuffer]
    rw [idxList_snoc, if_pos h, List.map_map]
    apply List.map_congr_left
    intro i hi
    simp only [Function.comp_apply]
    by_cases hid : i = d.index
    · subst hid
      rw [if_pos rfl, List.filter_append]
      have hf : [d].filter (fun x => x.index = d.index) = [d] := by
        simp
      rw [hf, specEntryOf_snoc]
    · rw [if_neg hid, List.filter_append]
      have hf : [d].filter (fun x => x.index = i) = [] := by
        simp [hid]
        intro hcontra
        exact absurd hcontra.symm hid
      rw [hf, List.append_nil]
  · rw [if_neg h]
    conv_lhs => rw [specBuffer]
    conv_rhs => rw [specBuffer]
    rw [idxList_snoc, if_neg h, List.map_append, List.map_append, List.map_map]
    have hnotin : d.index ∉ idxList ds := by
      intro hmem
      exact h (List.elem_iff.2 hmem)
    have hnone : ∀ x ∈ ds, x.index ≠ d.index := by
      intro x hx hidx
      exact hnotin ((mem_idxList_iff ds d.index).2 ⟨x, hx, hidx⟩)
    congr 1
    · apply List.map_congr_left
      intro i hi
      simp only [Function.comp_apply]
      have hid : i ≠ d.index := by
        intro hcontra
        exact hnotin (hcontra ▸ hi)
      rw [if_neg hid, List.filter_append]
      have hf : [d].filter (fun x => x.index = i) = [] := by
        simp [hid]
        intro hcontra
        exact absurd hcontra.symm hid
      rw [hf, List.append_nil]
    · simp only [List.map_cons, List.map_nil]
      rw [List.filter_append]
      have hf0 : ds.filter (fun x => x.index = d.index) = [] := by
        rw [List.filter_eq_nil_iff]
        intro a ha
        simp only [decide_eq_true_eq]
        exact hnone a ha
      have hf1 : [d].filter (fun x => x.index = d.index) = [d] := by
        simp
      rw [hf0, hf1, List.nil_append, specEntryOf_single]
      by_cases h1 : d.name = [] <;> by_cases h2 : d.args = [] <;>
        simp [h1, h2, ite_self]

lemma buffer_eq_spec (ds : List GroqToolDelta) :
    ds.foldl stepTool [] = specBuffer ds := by
  induction ds using List.reverseRecOn with
  | nil => rfl
  | append_singleton ds d ih =>
    rw [List.foldl_append, List.foldl_cons, List.foldl_nil, ih, specBuffer_snoc]

lemma foldItems_eq (items : List GroqItem) :
    items.foldl stepItem ([], [], [])
      = (concatTexts items, specBuffer (toolDeltasOf items), textEvents items) := by
  rw [fold_components, buffer_eq_spec]
  simp

lemma specBuffer_ne_nil (ds : List GroqToolDelta) (h : ds ≠ []) :
    specBuffer ds ≠ [] := by
  obtain ⟨d, rest, rfl⟩ := List.exists_cons_of_ne_nil h
  have hmem : d.index ∈ idxList (d :: rest) :=
    (mem_idxList_iff _ _).2 ⟨d, List.mem_cons_self _ _, rfl⟩
  intro hnil
  have h2 : idxList (d :: rest) = [] := by
    calc idxList (d :: rest) = (specBuffer (d :: rest)).map Prod.fst :=
          (map_fst_specBuffer _).symm
    _ = [] := by rw [hnil]; rfl
  rw [h2] at hmem
  exact absurd hmem (List.not_mem_nil _)

lemma runGroq_tool_char (parse : Str → Option ArgsV) (items : List GroqItem)
    (h : toolDeltasOf items ≠ []) :
    ∃ c cs, specCalls parse items = c :: cs ∧
      runGroq parse true items
        = (textEvents items ++ [Event.toolApproval c, Event.done],
           [⟨strAssistant, concatTexts items, c :: cs⟩]) := by
  have hb : specBuffer (toolDeltasOf items) ≠ [] := specBuffer_ne_nil _ h
  cases hsc : specCalls parse items with
  | nil =>
    exfalso
    unfold specCalls at hsc
    rw [List.map_eq_nil_iff] at hsc
    exact hb hsc
  | cons c cs =>
    refine ⟨c, cs, rfl, ?_⟩
    have hsc2 : (specBuffer (toolDeltasOf items)).map (finalizeCall parse)
        = c :: cs := hsc
    simp only [runGroq, foldItems_eq]
    rw [if_pos trivial, if_neg hb, hsc2]

lemma runGemAux_char (cu : Str) (n : Str) (a : ArgsV) (post : List GemPart) :
    ∀ pre : List GemPart, (∀ p ∈ pre, isTextPart p = true) →
    ∀ ft : Str, runGemAux cu ft (pre ++ GemPart.funCall n a :: post)
      = (gemTextEvents pre ++ [Event.toolApproval ⟨cu, n, a⟩, Event.done],
         [⟨strModelRole, ft ++ gemConcat pre, [⟨cu, n, a⟩]⟩]) := by
  intro pre
  induction pre with
  | nil =>
    intro _ ft
    simp [runGemAux, gemTextEvents, gemConcat, concatStr]
  | cons p pre ih =>
    intro hpre ft
    have hp := hpre p (List.mem_cons_self p pre)
    have hpre2 : ∀ q ∈ pre, isTextPart q = true :=
      fun q hq => hpre q (List.mem_cons_of_mem _ hq)
    cases p with
    | funCall n2 a2 => simp [isTextPart] at hp
    | text s =>
      by_cases hs : s = []
      · subst hs
        simp only [List.cons_append, runGemAux]
        rw [if_neg (by simp)]
        simp only [List.append_eq]
        rw [ih hpre2 ft]
        simp [gemTextEvents, gemConcat, List.filterMap_cons]
      · simp only [List.cons_append, runGemAux]
        rw [if_pos hs]
        simp only [List.append_eq]
        rw [ih hpre2 (ft ++ s)]
        simp [gemTextEvents, gemConcat, List.filterMap_cons, hs, concatStr_cons,
          List.append_assoc]

lemma runGroq_notool_char (parse : Str → Option ArgsV) (items : List GroqItem)
    (h : toolDeltasOf items = []) :
    runGroq parse true items
      = (textEvents items ++ [Event.done],
         if concatTexts items ≠ [] then [⟨strAssistant, concatTexts items, []⟩]
         else []) := by
  simp only [runGroq, foldItems_eq]
  rw [if_pos trivial, if_pos (by rw [h]; rfl)]

def gemTwoCalls : List GemPart :=
  [GemPart.funCall "alpha".toList [], GemPart.funCall "beta".toList []]

/-- C2 counterexample: the claimed behavior does not hold on the Gemini
path.  On a stream in which the provider produced two tool calls, the
Gemini path does not accumulate until stream end: it reacts to the first
function-call part, persists an assistant (`model`) turn whose tool-call
list contains only that first call — not the two produced calls — and
returns; the Groq path on the analogous stream persists both calls. -/
theorem gemini_first_call_only_counterexample :
    gemTwoCalls.countP (fun p => match p with
        | GemPart.funCall _ _ => true | _ => false) = 2 ∧
    (runGem "u".toList true gemTwoCalls).2
      = [⟨strModelRole, [], [⟨"u".toList, "alpha".toList, []⟩]⟩] ∧
    ((runGroq parse0 true [GroqItem.tool ⟨0, "i1".toList, "alpha".toList, []⟩,
        GroqItem.tool ⟨1, "i2".toList, "beta".toList, []⟩]).2.headD
        ⟨[], [], []⟩).toolCalls.length = 2 := by
  decide

/-- C2 amended: on the Groq path, a streamed turn with at least one tool
delta accumulates fragments by stream index until stream end, persists
exactly one assistant turn whose tool-call list is exactly the accumulated
calls (`specCalls`, with an unparseable or empty argument string treated as
no arguments), emits the text events followed by exactly one
`tool_approval_request` carrying the first accumulated call and then the
terminal sentinel.  On the Gemini path, the first function-call part
triggers exactly one `tool_approval_request` and the persistence of one
`model` turn carrying only that first call, followed by the sentinel, the
rest of the stream being discarded. -/
theorem stream_tool_turn_amended :
    (∀ (parse : Str → Option ArgsV) (items : List GroqItem),
      toolDeltasOf items ≠ [] →
      ∃ c cs, specCalls parse items = c :: cs ∧
        runGroq parse true items
          = (textEvents items ++ [Event.toolApproval c, Event.done],
             [⟨strAssistant, concatTexts items, c :: cs⟩])) ∧
    (∀ (parse : Str → Option ArgsV) (k : Nat) (i nm s : Str),
      parse s = none → finalizeCall parse (k, ⟨i, nm, s⟩) = ⟨i, nm, []⟩) ∧
    (∀ (cu : Str) (pre post : List GemPart) (n : Str) (a : ArgsV),
      (∀ p ∈ pre, isTextPart p = true) →
      runGem cu true (pre ++ GemPart.funCall n a :: post)
        = (gemTextEvents pre ++ [Event.toolApproval ⟨cu, n, a⟩, Event.done],
           [⟨strModelRole, gemConcat pre, [⟨cu, n, a⟩]⟩])) := by
  refine ⟨runGroq_tool_char, fun parse k i nm s hp => ?_, fun cu pre post n a hpre => ?_⟩
  · unfold finalizeCall
    rw [hp]
    rfl
  · unfold runGem
    rw [if_pos rfl]
    rw [runGemAux_char cu n a post pre hpre []]
    rfl

theorem stream_tool_turn_amended_witness :
    (toolDeltasOf [GroqItem.text "hi".toList,
        GroqItem.tool ⟨0, "i1".toList, "f".toList, "bad json".toList⟩] ≠ []) ∧
    (∃ c cs, specCalls parse0 [GroqItem.text "hi".toList,
        GroqItem.tool ⟨0, "i1".toList, "f".toList, "bad json".toList⟩] = c :: cs ∧
      runGroq parse0 true [GroqItem.text "hi".toList,
          GroqItem.tool ⟨0, "i1".toList, "f".toList, "bad json".toList⟩]
        = (textEvents [GroqItem.text "hi".toList,
              GroqItem.tool ⟨0, "i1".toList, "f".toList, "bad json".toList⟩]
            ++ [Event.toolApproval c, Event.done],
           [⟨strAssistant, concatTexts [GroqItem.text "hi".toList,
              GroqItem.tool ⟨0, "i1".toList, "f".toList, "bad json".toList⟩],
             c :: cs⟩])) ∧
    (parse0 "bad json".toList = none) ∧
    finalizeCall parse0 (0, ⟨"i1".toList, "f".toList, "bad json".toList⟩)
      = ⟨"i1".toList, "f".toList, []⟩ ∧
    (∀ p ∈ ([GemPart.text "hi".toList] : List GemPart), isTextPart p = true) ∧
    runGem "u1".toList true
        ([GemPart.text "hi".toList] ++ GemPart.funCall "g".toList [] :: [])
      = (gemTextEvents [GemPart.text "hi".toList]
          ++ [Event.toolApproval ⟨"u1".toList, "g".toList, []⟩, Event.done],
         [⟨strModelRole, gemConcat [GemPart.text "hi".toList],
            [⟨"u1".toList, "g".toList, []⟩]⟩]) :=
  ⟨by decide,
    stream_tool_turn_amended.1 parse0 _ (by decide),
    rfl,
    stream_tool_turn_amended.2.1 parse0 0 "i1".toList "f".toList "bad json".toList rfl,
    by decide,
    stream_tool_turn_amended.2.2 "u1".toList [GemPart.text "hi".toList] []
      "g".toList [] (by decide)⟩

-- Event shapes for C7: structural comparison of the two provider paths.

inductive EvTag
  | tText
  | tApproval
  | tToolResult
  | tError
  | tDone
deriving DecidableEq

def evTag : Event → EvTag
  | .text _ => .tText
  | .toolApproval _ => .tApproval
  | .toolResult _ _ => .tToolResult
  | .error _ => .tError
  | .done => .tDone

/-- The structural shape of the Groq path's emitted event sequence. -/
def groqShape (parse : Str → Option ArgsV) (clientOk : Bool)
    (items : List GroqItem) : List EvTag :=
  ((runGroq parse clientOk items).1).map evTag

/-- The structural shape of the Gemini path's emitted event sequence. -/
def gemShape (cu : Str) (clientOk : Bool) (parts : List GemPart) : List EvTag :=
  ((runGem cu clientOk parts).1).map evTag

lemma textEvents_mem_shape (items : List GroqItem) :
    ∀ e ∈ textEvents items, evTag e = EvTag.tText := by
  intro e he
  unfold textEvents at he
  rw [List.mem_filterMap] at he
  obtain ⟨it, _, hf⟩ := he
  cases it with
  | text s =>
    change (if s ≠ [] then some (Event.text s) else none) = some e at hf
    by_cases hs : s = []
    · rw [if_neg (by simp [hs])] at hf
      exact absurd hf (by simp)
    · rw [if_pos hs] at hf
      obtain rfl := Option.some.inj hf
      rfl
  | tool d =>
    change (none : Option Event) = some e at hf
    exact absurd hf (by simp)

lemma map_evTag_of_all_text (l : List Event)
    (h : ∀ e ∈ l, evTag e = EvTag.tText) :
    l.map evTag = List.replicate l.length EvTag.tText := by
  induction l with
  | nil => rfl
  | cons e t ih =>
    simp only [List.map_cons, List.length_cons, List.replicate_succ]
    rw [h e (List.mem_cons_self e t), ih (fun x hx => h x (List.mem_cons_of_mem _ hx))]

lemma groqShape_char (parse : Str → Option ArgsV) (items : List GroqItem) :
    groqShape parse true items
      = List.replicate (textEvents items).length EvTag.tText
        ++ (if toolDeltasOf items = [] then [EvTag.tDone]
            else [EvTag.tApproval, EvTag.tDone]) := by
  by_cases h : toolDeltasOf items = []
  · unfold groqShape
    rw [runGroq_notool_char parse items h]
    simp only [List.map_append]
    rw [map_evTag_of_all_text _ (textEvents_mem_shape items), if_pos h]
    rfl
  · obtain ⟨c, cs, _, heq⟩ := runGroq_tool_char parse items h
    unfold groqShape
    rw [heq]
    simp only [List.map_append]
    rw [map_evTag_of_all_text _ (textEvents_mem_shape items), if_neg h]
    rfl

/-- Count of truthy text parts before the first function-call part: the only
text events the Gemini path emits. -/
def nTextBefore : List GemPart → Nat
  | [] => 0
  | .funCall _ _ :: _ => 0
  | .text s :: ps => (if s ≠ [] then 1 else 0) + nTextBefore ps

def hasFunCall : List GemPart → Bool
  | [] => false
  | .funCall _ _ :: _ => true
  | .text _ :: ps => hasFunCall ps

lemma gemShapeAux_char (cu : Str) : ∀ (parts : List GemPart) (ft : Str),
    ((runGemAux cu ft parts).1).map evTag
      = List.replicate (nTextBefore parts) EvTag.tText
        ++ (if hasFunCall parts then [EvTag.tApproval, EvTag.tDone]
            else [EvTag.tDone]) := by
  intro parts
  induction parts with
  | nil => intro ft; rfl
  | cons p ps ih =>
    intro ft
    cases p with
    | funCall n a => simp [runGemAux, nTextBefore, hasFunCall, evTag]
    | text s =>
      by_cases hs : s = []
      · subst hs
        simp only [runGemAux]
        rw [if_neg (by simp)]
        rw [ih ft]
        simp [nTextBefore, hasFunCall]
      · simp only [runGemAux]
        rw [if_pos hs]
        simp only [List.map_cons]
        rw [ih (ft ++ s)]
        have hn : nTextBefore (GemPart.text s :: ps) = nTextBefore ps + 1 := by
          simp [nTextBefore, hs, Nat.add_comm]
        rw [hn, List.replicate_succ]
        simp [hasFunCall, evTag]

lemma gemShape_char (cu : Str) (parts : List GemPart) :
    gemShape cu true parts
      = List.replicate (nTextBefore parts) EvTag.tText
        ++ (if hasFunCall parts then [EvTag.tApproval, EvTag.tDone]
            else [EvTag.tDone]) := by
  unfold gemShape runGem
  rw [if_pos rfl]
  exact gemShapeAux_char cu parts []

lemma nTextBefore_rep (k : Nat) (rest : List GemPart) :
    nTextBefore (List.replicate k (GemPart.text ['a']) ++ rest)
      = k + nTextBefore rest := by
  induction k with
  | zero => simp
  | succ k ih =>
    simp only [List.replicate_succ, List.cons_append, nTextBefore, List.append_eq]
    rw [show (if (['a'] : Str) ≠ [] then 1 else 0) = 1 from by decide, ih]
    omega

lemma hasFunCall_rep (k : Nat) (rest : List GemPart) :
    hasFunCall (List.replicate k (GemPart.text ['a']) ++ rest)
      = hasFunCall rest := by
  induction k with
  | zero => simp
  | succ k ih => simp [List.replicate_succ, hasFunCall, ih]

lemma textEvents_rep (k : Nat) (rest : List GroqItem) :
    textEvents (List.replicate k (GroqItem.text ['a']) ++ rest)
      = List.replicate k (Event.text ['a']) ++ textEvents rest := by
  induction k with
  | zero => simp
  | succ k ih =>
    simp only [List.replicate_succ, List.cons_append]
    rw [show textEvents (GroqItem.text ['a']
        :: (List.replicate k (GroqItem.text ['a']) ++ rest))
      = Event.text ['a'] :: textEvents (List.replicate k (GroqItem.text ['a']) ++ rest) by
        simp [textEvents, List.filterMap_cons]]
    rw [ih]

lemma toolDeltasOf_rep (k : Nat) (rest : List GroqItem) :
    toolDeltasOf (List.replicate k (GroqItem.text ['a']) ++ rest)
      = toolDeltasOf rest := by
  induction k with
  | zero => simp
  | succ k ih => simp [List.replicate_succ, toolDeltasOf, List.filterMap_cons, ih]

lemma nTextBefore_rep_nil (k : Nat) :
    nTextBefore (List.replicate k (GemPart.text ['a'])) = k := by
  have h := nTextBefore_rep k []
  rw [List.append_nil] at h
  simp [nTextBefore] at h
  exact h

lemma hasFunCall_rep_nil (k : Nat) :
    hasFunCall (List.replicate k (GemPart.text ['a'])) = false := by
  have h := hasFunCall_rep k []
  rw [List.append_nil] at h
  simp [hasFunCall] at h
  exact h

lemma textEvents_rep_nil (k : Nat) :
    textEvents (List.replicate k (GroqItem.text ['a']))
      = List.replicate k (Event.text ['a']) := by
  have h := textEvents_rep k []
  rw [List.append_nil] at h
  rw [h]
  simp [textEvents]

lemma toolDeltasOf_rep_nil (k : Nat) :
    toolDeltasOf (List.replicate k (GroqItem.text ['a'])) = [] := by
  have h := toolDeltasOf_rep k []
  rw [List.append_nil] at h
  rw [h]
  simp [toolDeltasOf]

/-- C7 amended: the two provider paths emit event sequences from the same
structural language — zero or more `text` events followed by either
`tool_approval_request`+`done` or a bare `done` (and a single `error` shape
when the provider client is unavailable): every shape the Groq path can
emit, the Gemini path can emit, and conversely.  On one and the same
underlying provider stream the shapes may differ (see the counterexample):
the Gemini path stops at the first function call, the Groq path drains the
stream. -/
theorem provider_shape_language_eq :
    ∀ (parse : Str → Option ArgsV) (cu : Str) (clientOk : Bool),
      (∀ items : List GroqItem, ∃ parts : List GemPart,
        gemShape cu clientOk parts = groqShape parse clientOk items) ∧
      (∀ parts : List GemPart, ∃ items : List GroqItem,
        groqShape parse clientOk items = gemShape cu clientOk parts) := by
  intro parse cu clientOk
  cases clientOk with
  | false => exact ⟨fun items => ⟨[], rfl⟩, fun parts => ⟨[], rfl⟩⟩
  | true =>
    constructor
    · intro items
      refine ⟨List.replicate (textEvents items).length (GemPart.text ['a'])
          ++ (if toolDeltasOf items = [] then []
              else [GemPart.funCall [] []]), ?_⟩
      rw [gemShape_char, groqShape_char]
      by_cases h : toolDeltasOf items = []
      · simp [h, nTextBefore_rep, hasFunCall_rep, nTextBefore_rep_nil,
          hasFunCall_rep_nil, nTextBefore, hasFunCall]
      · simp [h, nTextBefore_rep, hasFunCall_rep, nTextBefore_rep_nil,
          hasFunCall_rep_nil, nTextBefore, hasFunCall]
    · intro parts
      refine ⟨List.replicate (nTextBefore parts) (GroqItem.text ['a'])
          ++ (if hasFunCall parts then [GroqItem.tool ⟨0, [], [], []⟩]
              else []), ?_⟩
      rw [groqShape_char, gemShape_char]
      by_cases h : hasFunCall parts
      · simp [h, textEvents_rep, toolDeltasOf_rep, textEvents_rep_nil,
          toolDeltasOf_rep_nil, textEvents, toolDeltasOf, List.filterMap_cons]
      · simp [h, textEvents_rep, toolDeltasOf_rep, textEvents_rep_nil,
          toolDeltasOf_rep_nil]

/-- An abstract provider delta stream, injected into each provider path's
input shape, to compare the two paths on the same underlying stream. -/
inductive AbsDelta
  | dText (s : Str)
  | dCall (name : Str)
deriving DecidableEq

def toGroqItems : List AbsDelta → List GroqItem
  | [] => []
  | .dText s :: r => GroqItem.text s :: toGroqItems r
  | .dCall n :: r => GroqItem.tool ⟨0, "id".toList, n, []⟩ :: toGroqItems r

def toGemParts : List AbsDelta → List GemPart
  | [] => []
  | .dText s :: r => GemPart.text s :: toGemParts r
  | .dCall n :: r => GemPart.funCall n [] :: toGemParts r

def absCx : List AbsDelta := [AbsDelta.dCall "f".toList, AbsDelta.dText "x".toList]

/-- C7 counterexample: on the same underlying provider stream — a tool call
followed by a text delta — the two paths emit structurally different
canonical event sequences: Groq relays the text and then the approval
request, Gemini returns at the function call and never emits the text
event. -/
theorem provider_shape_counterexample :
    groqShape parse0 true (toGroqItems absCx)
      = [EvTag.tText, EvTag.tApproval, EvTag.tDone] ∧
    gemShape "u".toList true (toGemParts absCx)
      = [EvTag.tApproval, EvTag.tDone] ∧
    groqShape parse0 true (toGroqItems absCx)
      ≠ gemShape "u".toList true (toGemParts absCx) := by
  decide

/-- C6: an unknown sanitized name and a missing connection each return a
descriptive error string with no tool invocation; a remote execution error
and a transport exception are rendered as error text.  `executeTool` is a
total function into strings: no case raises to the caller. -/
theorem execute_tool_error_text :
    ∀ (uniqueName : Str) (toolMap : List (Str × ToolInfo)) (liveConns : List Str)
      (outcome : CallOutcome),
      (assocFind toolMap uniqueName = none →
        executeTool uniqueName toolMap liveConns outcome
          = (strErrToolNotFound1 ++ uniqueName ++ strErrToolNotFound2, false)) ∧
      (∀ info, assocFind toolMap uniqueName = some info →
        liveConns.contains info.connection_id = false →
        executeTool uniqueName toolMap liveConns outcome = (strConnLost, false)) ∧
      (∀ info m, assocFind toolMap uniqueName = some info →
        liveConns.contains info.connection_id = true →
        executeTool uniqueName toolMap liveConns (.exn m) = (strToolExc ++ m, true)) ∧
      (∀ info contentRepr structured content,
        assocFind toolMap uniqueName = some info →
        liveConns.contains info.connection_id = true →
        executeTool uniqueName toolMap liveConns
            (.result true contentRepr structured content)
          = (strExecErr ++ contentRepr, true)) := by
  intro uniqueName toolMap liveConns outcome
  refine ⟨fun h => ?_, fun info h hc => ?_, fun info m h hc => ?_,
    fun info contentRepr structured content h hc => ?_⟩
  · unfold executeTool
    rw [h]
  · simp only [executeTool, h, hc]
    simp
  · simp only [executeTool, h, hc]
    simp
  · simp only [executeTool, h, hc]
    simp

theorem execute_tool_error_text_witness :
    executeTool "ghost".toList [] [] (.exn "boom".toList)
        = (strErrToolNotFound1 ++ "ghost".toList ++ strErrToolNotFound2, false) ∧
    executeTool "t".toList [("t".toList, tInfo0)] [] (.exn "boom".toList)
        = (strConnLost, false) ∧
    executeTool "t".toList [("t".toList, tInfo0)] ["c1".toList] (.exn "boom".toList)
        = (strToolExc ++ "boom".toList, true) ∧
    executeTool "t".toList [("t".toList, tInfo0)] ["c1".toList]
        (.result true "bad".toList none [])
        = (strExecErr ++ "bad".toList, true) :=
  ⟨(execute_tool_error_text "ghost".toList [] [] (.exn "boom".toList)).1 (by decide),
   (execute_tool_error_text "t".toList [("t".toList, tInfo0)] [] (.exn "boom".toList)).2.1
      tInfo0 (by decide) (by decide),
   (execute_tool_error_text "t".toList [("t".toList, tInfo0)] ["c1".toList]
      (.exn "boom".toList)).2.2.1 tInfo0 "boom".toList (by decide) (by decide),
   (execute_tool_error_text "t".toList [("t".toList, tInfo0)] ["c1".toList]
      (.exn "boom".toList)).2.2.2 tInfo0 "bad".toList none [] (by decide) (by decide)⟩
